import Mathlib

/-!
Shallow embedding of src/linux.rs from the local-ip-address repository.

The two entry points, local_ip and find_af_inet, interact with the OS
(a netlink socket, the getifaddrs linked list).  The embedding makes the
OS-provided data explicit parameters:

* find_af_inet receives the endianness of the host (le = true means
  little-endian, mirroring cfg target_endian = "little"), the return code
  of getifaddrs, and the linked list as a Lean list of node records; a
  null next pointer is the end of the Lean list, and a null ifa_addr
  pointer is Option.none.  Dereferencing a null pointer is undefined
  behaviour and is modelled by the Option.none result of the walk.
* local_ip receives the endianness, the outcome of the socket connect and
  of the send (Option.none = success, Option.some msg = failure with that
  error text), and the netlink response stream as a Lean list.

C unions (sockaddr reinterpreted as sockaddr_in or sockaddr_in6) are
modelled by a record carrying both views; the code selects the view by
the sa_family tag, exactly as the source casts the pointer.
-/

namespace LocalIpAddress

/-- libc constant AF_INET on Linux. -/
def AF_INET : Nat := 2

/-- libc constant AF_INET6 on Linux. -/
def AF_INET6 : Nat := 10

/-- netlink message type Rtm::Newaddr (RTM_NEWADDR). -/
def RTM_NEWADDR : Nat := 20

/-- RtScope::Universe (RT_SCOPE_UNIVERSE). -/
def RT_SCOPE_UNIVERSE : Nat := 0

/-- RtScope::Host (RT_SCOPE_HOST), the scope of loopback addresses. -/
def RT_SCOPE_HOST : Nat := 254

/-- rtnetlink attribute type Ifa::Local (IFA_LOCAL). -/
def IFA_LOCAL : Nat := 2

/-- std::net::IpAddr: V4 carries the four dotted-decimal octets, V6 the
sixteen raw bytes copied from s6_addr. -/
inductive IpAddr where
  | V4 (a b c d : Nat)
  | V6 (bytes : List Nat)
deriving DecidableEq, Repr

/-- crate::Error from the source.  IntAddrNameParseError carries the
offending name bytes (the Rust value carries a FromUtf8Error holding the
bytes and the error position). -/
inductive Error where
  | NetlinkIOError (msg : String)
  | NetlinkSendMessageError (msg : String)
  | NetlinkFailedToFindLocalIp
  | GetIfAddrsError (code : Int)
  | IntAddrNameParseError (bytes : List Nat)
deriving DecidableEq, Repr

/-- Decoding of one UTF-8 sequence at the front of a byte list,
following the validity rules enforced by Rust's String::from_utf8:
1-to-4 byte sequences, no overlong forms, no surrogates, maximum
U+10FFFF.  Yields the scalar value and the remaining bytes (a strict
suffix), or none on an invalid sequence. -/
def utf8DecodeStep : List Nat → Option (Nat × List Nat)
  | [] => none
  | b :: bs =>
    if b < 0x80 then some (b, bs)
    else if 0xC2 ≤ b ∧ b < 0xE0 then
      match bs with
      | b1 :: bs1 =>
        if 0x80 ≤ b1 ∧ b1 < 0xC0 then
          some ((b - 0xC0) * 0x40 + (b1 - 0x80), bs1)
        else none
      | [] => none
    else if 0xE0 ≤ b ∧ b < 0xF0 then
      match bs with
      | b1 :: b2 :: bs2 =>
        if (if b = 0xE0 then 0xA0 else 0x80) ≤ b1 ∧
            b1 < (if b = 0xED then 0xA0 else 0xC0) ∧
            0x80 ≤ b2 ∧ b2 < 0xC0 then
          some ((b - 0xE0) * 0x1000 + (b1 - 0x80) * 0x40 + (b2 - 0x80), bs2)
        else none
      | _ => none
    else if 0xF0 ≤ b ∧ b < 0xF5 then
      match bs with
      | b1 :: b2 :: b3 :: bs3 =>
        if (if b = 0xF0 then 0x90 else 0x80) ≤ b1 ∧
            b1 < (if b = 0xF4 then 0x90 else 0xC0) ∧
            0x80 ≤ b2 ∧ b2 < 0xC0 ∧ 0x80 ≤ b3 ∧ b3 < 0xC0 then
          some ((b - 0xF0) * 0x40000 + (b1 - 0x80) * 0x1000 +
            (b2 - 0x80) * 0x40 + (b3 - 0x80), bs3)
        else none
      | _ => none
    else none

/-- Iterated sequence decoding.  The fuel only serves termination: each
step consumes at least one byte, so fuel equal to the byte count never
runs out. -/
def utf8DecodeAux : Nat → List Nat → Option (List Nat)
  | _, [] => some []
  | 0, _ :: _ => none
  | fuel + 1, b :: bs =>
    match utf8DecodeStep (b :: bs) with
    | none => none
    | some (c, rest) => (utf8DecodeAux fuel rest).map (fun cs => c :: cs)

/-- UTF-8 decoding of a byte sequence into unicode scalar values.
Returns none exactly when Rust's String::from_utf8 returns Err. -/
def utf8Decode (l : List Nat) : Option (List Nat) :=
  utf8DecodeAux l.length l

/-- Build a Lean string from decoded unicode scalar values. -/
def stringOfScalars (cs : List Nat) : String :=
  String.mk (cs.map Char.ofNat)

/-- Loading a 4-byte memory region (given in address order) as a u32 in
the host's native byte order: little-endian hosts put the first byte in
the low-order position. -/
def load_u32 (le : Bool) (m : Nat × Nat × Nat × Nat) : Nat :=
  if le then
    m.2.2.2 * 0x1000000 + m.2.2.1 * 0x10000 + m.2.1 * 0x100 + m.1
  else
    m.1 * 0x1000000 + m.2.1 * 0x10000 + m.2.2.1 * 0x100 + m.2.2.2

/-- u32::swap_bytes: reverse the four bytes of a 32-bit value. -/
def swap_bytes (n : Nat) : Nat :=
  (n % 0x100) * 0x1000000 + (n / 0x100 % 0x100) * 0x10000 +
    (n / 0x10000 % 0x100) * 0x100 + (n / 0x1000000 % 0x100)

/-- Ipv4Addr::from (u32): the high-order byte becomes the first octet. -/
def ipv4_from_u32 (n : Nat) : IpAddr :=
  IpAddr.V4 (n / 0x1000000 % 0x100) (n / 0x10000 % 0x100) (n / 0x100 % 0x100) (n % 0x100)

/-- The IPv4 arm of find_af_inet applied to the loaded s_addr value:
construct the address, and on little-endian hosts rebuild it from the
byte-swapped value (the conditional swap of the source). -/
def ipv4_addr_of (le : Bool) (s_addr : Nat) : IpAddr :=
  if le then ipv4_from_u32 (swap_bytes s_addr) else ipv4_from_u32 s_addr

/-- u32::from_be: on a little-endian host swap bytes, on big-endian the
identity. -/
def u32_from_be (le : Bool) (n : Nat) : Nat :=
  if le then swap_bytes n else n

/-- The sockaddr pointed to by ifa_addr.  sa_family is the family tag;
sin_addr is the 4-byte memory of the in_addr field seen through the
sockaddr_in view (bytes in address order, i.e. network order); sin6_addr
is the 16-byte s6_addr array seen through the sockaddr_in6 view. -/
structure Sockaddr where
  sa_family : Nat
  sin_addr : Nat × Nat × Nat × Nat
  sin6_addr : List Nat
deriving DecidableEq, Repr

/-- One node of the getifaddrs linked list: the null-terminated name
bytes (terminator not stored; strlen stops at the first 0 byte) and the
ifa_addr pointer (none models a null pointer). -/
structure Ifaddrs where
  ifa_name : List Nat
  ifa_addr : Option Sockaddr
deriving DecidableEq, Repr

/-- get_ifa_name: strlen scans to the first 0 byte, the bytes before it
are validated as UTF-8; failure yields IntAddrNameParseError. -/
def get_ifa_name (name_bytes : List Nat) : Except Error String :=
  let slice := name_bytes.takeWhile (fun b => b ≠ 0)
  match utf8Decode slice with
  | some cs => .ok (stringOfScalars cs)
  | none => .error (.IntAddrNameParseError slice)

/-- The while loop of find_af_inet.  The loop condition is
"the current node's ifa_next is not null", so a node is processed only
when a successor exists: the empty list means a null head pointer and
the dereference of the loop condition is undefined behaviour (none); a
one-element list fails the condition at once and yields the accumulator.
Processing a node dereferences ifa_addr with no null check, so a null
ifa_addr on a processed node is undefined behaviour (none). -/
def find_af_inet_loop (le : Bool) : List Ifaddrs → Option (Except Error (List (String × IpAddr)))
  | [] => none
  | [_] => some (.ok [])
  | n :: next :: rest =>
    match n.ifa_addr with
    | none => none
    | some sa =>
      if sa.sa_family = AF_INET then
        match get_ifa_name n.ifa_name with
        | .error e => some (.error e)
        | .ok name =>
          (find_af_inet_loop le (next :: rest)).map
            (Except.map (fun l => (name, ipv4_addr_of le (load_u32 le sa.sin_addr)) :: l))
      else if sa.sa_family = AF_INET6 then
        match get_ifa_name n.ifa_name with
        | .error e => some (.error e)
        | .ok name =>
          (find_af_inet_loop le (next :: rest)).map
            (Except.map (fun l => (name, IpAddr.V6 sa.sin6_addr) :: l))
      else
        find_af_inet_loop le (next :: rest)

instance instDecEqExcept {ε α : Type} [DecidableEq ε] [DecidableEq α] :
    DecidableEq (Except ε α) := fun x y =>
  match x, y with
  | .error a, .error b => decidable_of_iff (a = b) (by simp)
  | .error _, .ok _ => isFalse (fun h => Except.noConfusion h)
  | .ok _, .error _ => isFalse (fun h => Except.noConfusion h)
  | .ok a, .ok b => decidable_of_iff (a = b) (by simp)

/-- The observable outcome of one call to find_af_inet: the returned
value (none when the call runs into undefined behaviour) and how often
the deallocation calls were made.  The source contains no call to
freeifaddrs and no call to libc::free, so both counters are 0 on every
path. -/
structure FindAfInetExec where
  result : Option (Except Error (List (String × IpAddr)))
  freeifaddrs_calls : Nat
  free_calls : Nat
deriving DecidableEq, Repr

/-- find_af_inet: malloc the list handle, call getifaddrs (its return
code is a parameter), fail with GetIfAddrsError on a nonzero code,
otherwise walk the list.  No deallocation call appears anywhere in the
source function, so every path reports zero deallocation calls. -/
def find_af_inet_run (le : Bool) (getifaddrs_result : Int) (nodes : List Ifaddrs) :
    FindAfInetExec :=
  if getifaddrs_result ≠ 0 then
    { result := some (.error (.GetIfAddrsError getifaddrs_result)),
      freeifaddrs_calls := 0, free_calls := 0 }
  else
    { result := find_af_inet_loop le nodes,
      freeifaddrs_calls := 0, free_calls := 0 }

/-- find_af_inet when getifaddrs succeeds: just the returned value. -/
def find_af_inet (le : Bool) (nodes : List Ifaddrs) :
    Option (Except Error (List (String × IpAddr))) :=
  (find_af_inet_run le 0 nodes).result

/-- One rtnetlink attribute of an Ifaddrmsg payload: the type tag and
the raw payload bytes. -/
structure Rtattr where
  rta_type : Nat
  payload : List Nat
deriving DecidableEq, Repr

/-- The decoded Ifaddrmsg payload of a response message: the scope and
the attribute list (the other fields are not read by local_ip). -/
structure Ifaddrmsg where
  ifa_scope : Nat
  rtattrs : List Rtattr
deriving DecidableEq, Repr

/-- The nl_payload field of a response header.  payload is
NlPayload::Payload, empty is NlPayload::Empty; other stands for the
remaining variants (Err, Ack), which are not Empty and on which
get_payload fails. -/
inductive NlPayloadM where
  | empty
  | payload (p : Ifaddrmsg)
  | other
deriving DecidableEq, Repr

/-- One element of the netlink response stream: either the iterator
yields a transport or decode error (recvErr), or a header with its
message type and payload. -/
inductive NlResponse where
  | recvErr
  | msg (nl_type : Nat) (nl_payload : NlPayloadM)
deriving DecidableEq, Repr

/-- rtattr.get_payload_as::<u32>: fails unless the payload is exactly 4
bytes, otherwise loads them as a native-endian u32. -/
def get_payload_as_u32 (le : Bool) : List Nat → Option Nat
  | [b0, b1, b2, b3] => some (load_u32 le (b0, b1, b2, b3))
  | _ => none

/-- The inner attribute loop of local_ip: every attribute whose type is
IFA_LOCAL contributes Ipv4Addr::from (u32::from_be (payload as u32));
a failing payload decode aborts (none), which the caller turns into
NetlinkFailedToFindLocalIp. -/
def collect_local_attrs (le : Bool) : List Rtattr → Option (List IpAddr)
  | [] => some []
  | a :: rest =>
    if a.rta_type = IFA_LOCAL then
      match get_payload_as_u32 le a.payload with
      | none => none
      | some v =>
        (collect_local_attrs le rest).map (fun l => ipv4_from_u32 (u32_from_be le v) :: l)
    else
      collect_local_attrs le rest

/-- The response loop of local_ip over the remaining stream, carrying
the addresses collected so far.  Order of checks per message follows the
source: a failed receive aborts; an Empty payload is skipped; a type
other than RTM_NEWADDR aborts; a payload on which get_payload fails
aborts; a scope other than Universe is skipped; then the attribute loop
runs, itself able to abort. -/
def local_ip_loop (le : Bool) : List NlResponse → List IpAddr → Except Error (List IpAddr)
  | [], acc => .ok acc
  | .recvErr :: _, _ => .error .NetlinkFailedToFindLocalIp
  | .msg t p :: rest, acc =>
    match p with
    | .empty => local_ip_loop le rest acc
    | .other =>
      if t ≠ RTM_NEWADDR then .error .NetlinkFailedToFindLocalIp
      else .error .NetlinkFailedToFindLocalIp
    | .payload pm =>
      if t ≠ RTM_NEWADDR then .error .NetlinkFailedToFindLocalIp
      else if pm.ifa_scope ≠ RT_SCOPE_UNIVERSE then local_ip_loop le rest acc
      else
        match collect_local_attrs le pm.rtattrs with
        | none => .error .NetlinkFailedToFindLocalIp
        | some l => local_ip_loop le rest (acc ++ l)

/-- local_ip: connect (connect_err = some msg models a failing
NlSocketHandle::connect), send (send_err likewise), then run the
response loop on the whole stream and return the first collected
address, or NetlinkFailedToFindLocalIp when none was collected. -/
def local_ip (le : Bool) (connect_err send_err : Option String)
    (responses : List NlResponse) : Except Error IpAddr :=
  match connect_err with
  | some e => .error (.NetlinkIOError e)
  | none =>
    match send_err with
    | some e => .error (.NetlinkSendMessageError e)
    | none =>
      match local_ip_loop le responses [] with
      | .error e => .error e
      | .ok addrs =>
        match addrs with
        | a :: _ => .ok a
        | [] => .error .NetlinkFailedToFindLocalIp

/-- A response element on which the loop aborts with
NetlinkFailedToFindLocalIp when it is reached: a failed receive, a
non-Empty payload with a type other than RTM_NEWADDR, a payload on
which get_payload fails, or a Universe-scope payload whose attribute
loop fails. -/
def malformed (le : Bool) : NlResponse → Bool
  | .recvErr => true
  | .msg _ .empty => false
  | .msg _ .other => true
  | .msg t (.payload pm) =>
    decide (t ≠ RTM_NEWADDR) ||
      (decide (pm.ifa_scope = RT_SCOPE_UNIVERSE) && (collect_local_attrs le pm.rtattrs).isNone)

/-- The addresses a response element contributes when the loop survives
it: the attribute-loop result of a decodable RTM_NEWADDR message with
Universe scope, and nothing otherwise. -/
def qualifying_addrs (le : Bool) : NlResponse → List IpAddr
  | .msg t (.payload pm) =>
    if t = RTM_NEWADDR ∧ pm.ifa_scope = RT_SCOPE_UNIVERSE then
      (collect_local_attrs le pm.rtattrs).getD []
    else []
  | _ => []

/-! ## Shared lemmas -/

/-- swap_bytes reverses a value packed from four bytes. -/
lemma swap_bytes_pack (b0 b1 b2 b3 : Nat)
    (h0 : b0 < 256) (h1 : b1 < 256) (h2 : b2 < 256) (h3 : b3 < 256) :
    swap_bytes (b3 * 0x1000000 + b2 * 0x10000 + b1 * 0x100 + b0) =
      b0 * 0x1000000 + b1 * 0x10000 + b2 * 0x100 + b3 := by
  simp only [swap_bytes]
  omega

/-- ipv4_from_u32 recovers the four packed bytes as the octets. -/
lemma ipv4_from_u32_pack (b0 b1 b2 b3 : Nat)
    (h0 : b0 < 256) (h1 : b1 < 256) (h2 : b2 < 256) (h3 : b3 < 256) :
    ipv4_from_u32 (b0 * 0x1000000 + b1 * 0x10000 + b2 * 0x100 + b3) =
      IpAddr.V4 b0 b1 b2 b3 := by
  simp only [ipv4_from_u32]
  congr 1 <;> omega

/-- Loading four bytes in host order and applying the conditional swap of
the IPv4 arm reconstructs the bytes in address (network) order. -/
lemma ipv4_roundtrip (le : Bool) (b0 b1 b2 b3 : Nat)
    (h0 : b0 < 256) (h1 : b1 < 256) (h2 : b2 < 256) (h3 : b3 < 256) :
    ipv4_addr_of le (load_u32 le (b0, b1, b2, b3)) = IpAddr.V4 b0 b1 b2 b3 := by
  cases le with
  | false =>
    show ipv4_from_u32 (b0 * 0x1000000 + b1 * 0x10000 + b2 * 0x100 + b3) = _
    exact ipv4_from_u32_pack b0 b1 b2 b3 h0 h1 h2 h3
  | true =>
    show ipv4_from_u32 (swap_bytes (b3 * 0x1000000 + b2 * 0x10000 + b1 * 0x100 + b0)) = _
    rw [swap_bytes_pack b0 b1 b2 b3 h0 h1 h2 h3]
    exact ipv4_from_u32_pack b0 b1 b2 b3 h0 h1 h2 h3

/-- A non-malformed response element advances the loop, appending the
addresses it contributes. -/
lemma local_ip_loop_cons_ok (le : Bool) (r : NlResponse) (rest : List NlResponse)
    (acc : List IpAddr) (h : malformed le r = false) :
    local_ip_loop le (r :: rest) acc =
      local_ip_loop le rest (acc ++ qualifying_addrs le r) := by
  cases r with
  | recvErr => simp [malformed] at h
  | msg t p =>
    cases p with
    | empty => simp [local_ip_loop, qualifying_addrs]
    | other => simp [malformed] at h
    | payload pm =>
      have ht : t = RTM_NEWADDR := by
        by_contra hne
        simp [malformed, hne] at h
      subst ht
      by_cases hs : pm.ifa_scope = RT_SCOPE_UNIVERSE
      · have hc : ∃ l, collect_local_attrs le pm.rtattrs = some l := by
          cases hcol : collect_local_attrs le pm.rtattrs with
          | none => simp [malformed, hs, hcol] at h
          | some l => exact ⟨l, rfl⟩
        obtain ⟨l, hl⟩ := hc
        simp [local_ip_loop, hs, hl, qualifying_addrs]
      · simp [local_ip_loop, hs, qualifying_addrs]

/-- A malformed response element aborts the loop with
NetlinkFailedToFindLocalIp. -/
lemma local_ip_loop_cons_err (le : Bool) (r : NlResponse) (rest : List NlResponse)
    (acc : List IpAddr) (h : malformed le r = true) :
    local_ip_loop le (r :: rest) acc = .error .NetlinkFailedToFindLocalIp := by
  cases r with
  | recvErr => rfl
  | msg t p =>
    cases p with
    | empty => simp [malformed] at h
    | other => by_cases ht : t = RTM_NEWADDR <;> simp [local_ip_loop, ht]
    | payload pm =>
      by_cases ht : t = RTM_NEWADDR
      · subst ht
        have h2 : pm.ifa_scope = RT_SCOPE_UNIVERSE ∧
            collect_local_attrs le pm.rtattrs = none := by
          simpa [malformed, Option.isNone_iff_eq_none] using h
        simp [local_ip_loop, h2.1, h2.2]
      · simp [local_ip_loop, ht]

/-- When no element of the stream is malformed, the loop returns the
accumulator followed by every contributed address, in stream order. -/
lemma local_ip_loop_ok_of_none_malformed (le : Bool) (rs : List NlResponse)
    (h : ∀ r ∈ rs, malformed le r = false) (acc : List IpAddr) :
    local_ip_loop le rs acc =
      .ok (acc ++ (rs.map (qualifying_addrs le)).flatten) := by
  induction rs generalizing acc with
  | nil => simp [local_ip_loop]
  | cons r rest ih =>
    rw [local_ip_loop_cons_ok le r rest acc (h r (List.mem_cons_self r rest))]
    rw [ih (fun x hx => h x (List.mem_cons_of_mem _ hx)) (acc ++ qualifying_addrs le r)]
    simp [List.append_assoc]

/-- When some element of the stream is malformed, the loop fails with
NetlinkFailedToFindLocalIp no matter what was already collected. -/
lemma local_ip_loop_err_of_malformed (le : Bool) (rs : List NlResponse)
    (h : ∃ r ∈ rs, malformed le r = true) (acc : List IpAddr) :
    local_ip_loop le rs acc = .error .NetlinkFailedToFindLocalIp := by
  induction rs generalizing acc with
  | nil => simp at h
  | cons r rest ih =>
    by_cases hr : malformed le r = true
    · exact local_ip_loop_cons_err le r rest acc hr
    · have hrf : malformed le r = false := by
        revert hr; cases malformed le r <;> simp
      have hrest : ∃ x ∈ rest, malformed le x = true := by
        obtain ⟨x, hx, hm⟩ := h
        rcases List.mem_cons.mp hx with hxr | hxrest
        · exact absurd (hxr ▸ hm) hr
        · exact ⟨x, hxrest, hm⟩
      rw [local_ip_loop_cons_ok le r rest acc hrf]
      exact ih hrest _

/-- Evaluator for the body of the while loop over the nodes the loop
actually processes (used to reason about find_af_inet_loop: the loop
processes exactly the nodes that have a successor, i.e. dropLast). -/
def process_nodes (le : Bool) : List Ifaddrs → Option (Except Error (List (String × IpAddr)))
  | [] => some (.ok [])
  | n :: rest =>
    match n.ifa_addr with
    | none => none
    | some sa =>
      if sa.sa_family = AF_INET then
        match get_ifa_name n.ifa_name with
        | .error e => some (.error e)
        | .ok name =>
          (process_nodes le rest).map
            (Except.map (fun l => (name, ipv4_addr_of le (load_u32 le sa.sin_addr)) :: l))
      else if sa.sa_family = AF_INET6 then
        match get_ifa_name n.ifa_name with
        | .error e => some (.error e)
        | .ok name =>
          (process_nodes le rest).map
            (Except.map (fun l => (name, IpAddr.V6 sa.sin6_addr) :: l))
      else
        process_nodes le rest

/-- On a non-null list the while loop of find_af_inet visits exactly the
nodes that have a successor: all nodes but the last. -/
lemma find_af_inet_loop_eq_process_dropLast (le : Bool) :
    ∀ (nodes : List Ifaddrs), nodes ≠ [] →
      find_af_inet_loop le nodes = process_nodes le nodes.dropLast := by
  intro nodes
  induction nodes with
  | nil => intro h; exact absurd rfl h
  | cons n rest ih =>
    intro _
    cases rest with
    | nil => rfl
    | cons next rest2 =>
      rw [List.dropLast_cons₂]
      have ihtail := ih (by simp)
      show find_af_inet_loop le (n :: next :: rest2) = _
      unfold find_af_inet_loop process_nodes
      rw [ihtail]

/-- If every processed node has a non-null ifa_addr, the processing
never dereferences a null pointer. -/
lemma process_nodes_total (le : Bool) :
    ∀ (pnodes : List Ifaddrs), (∀ n ∈ pnodes, n.ifa_addr.isSome) →
      process_nodes le pnodes ≠ none := by
  intro pnodes
  induction pnodes with
  | nil => intro _ h; exact Option.noConfusion h
  | cons n rest ih =>
    intro haddr
    obtain ⟨sa, hsa⟩ := Option.isSome_iff_exists.mp (haddr n (List.mem_cons_self n rest))
    have htail := ih (fun x hx => haddr x (List.mem_cons_of_mem _ hx))
    simp only [process_nodes, hsa]
    by_cases h4 : sa.sa_family = AF_INET
    · rw [if_pos h4]
      cases hname : get_ifa_name n.ifa_name with
      | error e => simp
      | ok name => simp [htail]
    · rw [if_neg h4]
      by_cases h6 : sa.sa_family = AF_INET6
      · rw [if_pos h6]
        cases hname : get_ifa_name n.ifa_name with
        | error e => simp
        | ok name => simp [htail]
      · rw [if_neg h6]
        exact htail

/-- A successful processing implies every processed node of a
recognized family had a name that decoded successfully. -/
lemma process_nodes_names_ok (le : Bool) :
    ∀ (pnodes : List Ifaddrs) (l : List (String × IpAddr)),
      process_nodes le pnodes = some (.ok l) →
      ∀ n ∈ pnodes, ∀ sa, n.ifa_addr = some sa →
        (sa.sa_family = AF_INET ∨ sa.sa_family = AF_INET6) →
        ∃ s, get_ifa_name n.ifa_name = .ok s := by
  intro pnodes
  induction pnodes with
  | nil => intro l _ n hn; exact absurd hn (List.not_mem_nil n)
  | cons m rest ih =>
    intro l h n hn sa hsa hfam
    rcases List.mem_cons.mp hn with hnm | hnrest
    · subst hnm
      cases hname : get_ifa_name n.ifa_name with
      | ok s => exact ⟨s, rfl⟩
      | error e =>
        simp only [process_nodes, hsa] at h
        rcases hfam with h4 | h6
        · rw [if_pos h4, hname] at h
          simp at h
        · by_cases h4 : sa.sa_family = AF_INET
          · rw [if_pos h4, hname] at h
            simp at h
          · rw [if_neg h4, if_pos h6, hname] at h
            simp at h
    · cases hma : m.ifa_addr with
      | none => simp [process_nodes, hma] at h
      | some msa =>
        simp only [process_nodes, hma] at h
        by_cases hm4 : msa.sa_family = AF_INET
        · rw [if_pos hm4] at h
          cases hname : get_ifa_name m.ifa_name with
          | error e => rw [hname] at h; simp at h
          | ok s =>
            rw [hname] at h
            simp only [Option.map_eq_some'] at h
            obtain ⟨r, hr, hmap⟩ := h
            cases r with
            | error e => simp [Except.map] at hmap
            | ok l2 => exact ih l2 hr n hnrest sa hsa hfam
        · rw [if_neg hm4] at h
          by_cases hm6 : msa.sa_family = AF_INET6
          · rw [if_pos hm6] at h
            cases hname : get_ifa_name m.ifa_name with
            | error e => rw [hname] at h; simp at h
            | ok s =>
              rw [hname] at h
              simp only [Option.map_eq_some'] at h
              obtain ⟨r, hr, hmap⟩ := h
              cases r with
              | error e => simp [Except.map] at hmap
              | ok l2 => exact ih l2 hr n hnrest sa hsa hfam
          · rw [if_neg hm6] at h
            exact ih l h n hnrest sa hsa hfam

/-- Every entry of a successful processing comes from some processed
node: the name is its decoded name and the address is the IPv4
reconstruction of its sin_addr or the verbatim copy of its sin6_addr. -/
lemma process_nodes_mem (le : Bool) :
    ∀ (pnodes : List Ifaddrs) (l : List (String × IpAddr)),
      process_nodes le pnodes = some (.ok l) →
      ∀ p ∈ l, ∃ n ∈ pnodes, ∃ sa, n.ifa_addr = some sa ∧
        get_ifa_name n.ifa_name = .ok p.1 ∧
        ((sa.sa_family = AF_INET ∧
            p.2 = ipv4_addr_of le (load_u32 le sa.sin_addr)) ∨
          (sa.sa_family = AF_INET6 ∧ p.2 = IpAddr.V6 sa.sin6_addr)) := by
  intro pnodes
  induction pnodes with
  | nil =>
    intro l h p hp
    have : l = [] := by
      simpa [process_nodes] using h
    subst this
    exact absurd hp (List.not_mem_nil p)
  | cons m rest ih =>
    intro l h p hp
    cases hma : m.ifa_addr with
    | none => simp [process_nodes, hma] at h
    | some msa =>
      simp only [process_nodes, hma] at h
      by_cases hm4 : msa.sa_family = AF_INET
      · rw [if_pos hm4] at h
        cases hname : get_ifa_name m.ifa_name with
        | error e => rw [hname] at h; simp at h
        | ok s =>
          rw [hname] at h
          simp only [Option.map_eq_some'] at h
          obtain ⟨r, hr, hmap⟩ := h
          cases r with
          | error e => simp [Except.map] at hmap
          | ok l2 =>
            have hl : l = (s, ipv4_addr_of le (load_u32 le msa.sin_addr)) :: l2 := by
              simpa [Except.map] using hmap.symm
            subst hl
            rcases List.mem_cons.mp hp with hph | hpt
            · exact ⟨m, List.mem_cons_self m rest, msa, hma,
                (by rw [hph]; exact hname), Or.inl ⟨hm4, by rw [hph]⟩⟩
            · obtain ⟨n, hn, sa, h1, h2, h3⟩ := ih l2 hr p hpt
              exact ⟨n, List.mem_cons_of_mem _ hn, sa, h1, h2, h3⟩
      · rw [if_neg hm4] at h
        by_cases hm6 : msa.sa_family = AF_INET6
        · rw [if_pos hm6] at h
          cases hname : get_ifa_name m.ifa_name with
          | error e => rw [hname] at h; simp at h
          | ok s =>
            rw [hname] at h
            simp only [Option.map_eq_some'] at h
            obtain ⟨r, hr, hmap⟩ := h
            cases r with
            | error e => simp [Except.map] at hmap
            | ok l2 =>
              have hl : l = (s, IpAddr.V6 msa.sin6_addr) :: l2 := by
                simpa [Except.map] using hmap.symm
              subst hl
              rcases List.mem_cons.mp hp with hph | hpt
              · exact ⟨m, List.mem_cons_self m rest, msa, hma,
                  (by rw [hph]; exact hname), Or.inr ⟨hm6, by rw [hph]⟩⟩
              · obtain ⟨n, hn, sa, h1, h2, h3⟩ := ih l2 hr p hpt
                exact ⟨n, List.mem_cons_of_mem _ hn, sa, h1, h2, h3⟩
        · rw [if_neg hm6] at h
          obtain ⟨n, hn, sa, h1, h2, h3⟩ := ih l h p hp
          exact ⟨n, List.mem_cons_of_mem _ hn, sa, h1, h2, h3⟩

/-- A successful decode of a non-empty byte sequence yields at least
one scalar value. -/
lemma utf8Decode_cons_ne_nil (b : Nat) (bs cs : List Nat)
    (h : utf8Decode (b :: bs) = some cs) : cs ≠ [] := by
  intro hnil
  subst hnil
  have h2 : utf8DecodeAux (bs.length + 1) (b :: bs) = some [] := by
    simpa [utf8Decode] using h
  cases hstep : utf8DecodeStep (b :: bs) with
  | none => simp [utf8DecodeAux, hstep] at h2
  | some cr =>
    simp only [utf8DecodeAux, hstep, Option.map_eq_some'] at h2
    obtain ⟨a, ha, hfa⟩ := h2
    exact List.noConfusion hfa

/-- A string built from at least one scalar is not the empty string. -/
lemma stringOfScalars_ne_empty (c : Nat) (cs : List Nat) :
    stringOfScalars (c :: cs) ≠ "" := by
  intro h
  have hd := congrArg String.data h
  simp [stringOfScalars] at hd

/-- find_af_inet on a successfully obtained non-null list evaluates the
loop, i.e. processes exactly the nodes that have a successor. -/
lemma find_af_inet_eq_process (le : Bool) (n : Ifaddrs) (rest : List Ifaddrs) :
    find_af_inet le (n :: rest) = process_nodes le ((n :: rest).dropLast) := by
  show (find_af_inet_run le 0 (n :: rest)).result = _
  unfold find_af_inet_run
  rw [if_neg (by simp)]
  exact find_af_inet_loop_eq_process_dropLast le _ (by simp)

/-- The IPv4 arm always produces a V4 value whose four octets are below
256. -/
lemma ipv4_addr_of_octets (le : Bool) (x : Nat) :
    ∃ a b c d, ipv4_addr_of le x = IpAddr.V4 a b c d ∧
      a < 256 ∧ b < 256 ∧ c < 256 ∧ d < 256 := by
  cases le <;>
    exact ⟨_, _, _, _, rfl,
      Nat.mod_lt _ (by norm_num), Nat.mod_lt _ (by norm_num),
      Nat.mod_lt _ (by norm_num), Nat.mod_lt _ (by norm_num)⟩

/-- The IPv4 arm never produces a V6 value. -/
lemma ipv4_addr_of_ne_V6 (le : Bool) (x : Nat) (bytes : List Nat) :
    ipv4_addr_of le x ≠ IpAddr.V6 bytes := by
  cases le <;> simp [ipv4_addr_of, ipv4_from_u32]

/-- With channel open and send successful, local_ip fails with
NetlinkFailedToFindLocalIp exactly when the stream has a malformed
element or contributes no address at all. -/
lemma local_ip_none_none_error_iff (le : Bool) (rs : List NlResponse) :
    local_ip le none none rs = .error .NetlinkFailedToFindLocalIp ↔
      (∃ r ∈ rs, malformed le r = true) ∨ ∀ r ∈ rs, qualifying_addrs le r = [] := by
  by_cases hm : ∃ r ∈ rs, malformed le r = true
  · have hloop := local_ip_loop_err_of_malformed le rs hm []
    simp [local_ip, hloop, hm]
  · have hforall : ∀ r ∈ rs, malformed le r = false := by
      intro r hr
      cases hmr : malformed le r with
      | false => rfl
      | true => exact absurd ⟨r, hr, hmr⟩ hm
    have hloop := local_ip_loop_ok_of_none_malformed le rs hforall []
    rw [List.nil_append] at hloop
    cases hf : (rs.map (qualifying_addrs le)).flatten with
    | nil =>
      rw [hf] at hloop
      have hq : ∀ r ∈ rs, qualifying_addrs le r = [] := by
        intro r hr
        have := List.flatten_eq_nil_iff.mp hf
        exact this _ (List.mem_map_of_mem _ hr)
      exact iff_of_true (by simp [local_ip, hloop]) (Or.inr hq)
    | cons a t =>
      rw [hf] at hloop
      have hq : ¬∀ r ∈ rs, qualifying_addrs le r = [] := by
        intro hq
        have : (rs.map (qualifying_addrs le)).flatten = [] := by
          apply List.flatten_eq_nil_iff.mpr
          intro x hx
          obtain ⟨r, hr, hxr⟩ := List.mem_map.mp hx
          rw [← hxr]
          exact hq r hr
        rw [hf] at this
        exact List.noConfusion this
      simp [local_ip, hloop, hm, hq]

/-- With channel open and send successful, a successful local_ip value
was contributed by some element of the stream. -/
lemma local_ip_none_none_ok_mem (le : Bool) (rs : List NlResponse) (a : IpAddr)
    (h : local_ip le none none rs = .ok a) :
    ∃ r ∈ rs, a ∈ qualifying_addrs le r := by
  by_cases hm : ∃ r ∈ rs, malformed le r = true
  · have hloop := local_ip_loop_err_of_malformed le rs hm []
    simp [local_ip, hloop] at h
  · have hforall : ∀ r ∈ rs, malformed le r = false := by
      intro r hr
      cases hmr : malformed le r with
      | false => rfl
      | true => exact absurd ⟨r, hr, hmr⟩ hm
    have hloop := local_ip_loop_ok_of_none_malformed le rs hforall []
    rw [List.nil_append] at hloop
    cases hf : (rs.map (qualifying_addrs le)).flatten with
    | nil =>
      rw [hf] at hloop
      simp [local_ip, hloop] at h
    | cons b t =>
      rw [hf] at hloop
      have hab : a = b := by
        have : local_ip le none none rs = .ok b := by
          simp [local_ip, hloop]
        rw [h] at this
        exact (Except.ok.injEq _ _).mp this.symm |>.symm
      have hmem : a ∈ (rs.map (qualifying_addrs le)).flatten := by
        rw [hf, hab]
        exact List.mem_cons_self b t
      obtain ⟨x, hx, hax⟩ := List.mem_flatten.mp hmem
      obtain ⟨r, hr, hxr⟩ := List.mem_map.mp hx
      exact ⟨r, hr, by rw [← hxr] at hax; exact hax⟩

/-! ## Claim theorems -/

/-- C1: find_af_inet is claimed to release all OS-owned list memory on
every exit path; the source function contains no call to freeifaddrs
and no call to free, so every execution — error path, aborted walk or
complete walk — performs zero deallocation calls. -/
theorem find_af_inet_never_frees (le : Bool) (code : Int) (nodes : List Ifaddrs) :
    (find_af_inet_run le code nodes).freeifaddrs_calls = 0 ∧
    (find_af_inet_run le code nodes).free_calls = 0 := by
  unfold find_af_inet_run
  split <;> exact ⟨rfl, rfl⟩

/-- C2: the while condition tests the current node's next pointer, so
the loop visits exactly the nodes that have a successor (dropLast) and
the terminal node is never examined; a one-node list — even a
recognized AF_INET interface such as eth0 with 10.0.0.5 — yields no
entry at all. -/
theorem find_af_inet_skips_terminal_node :
    (∀ (le : Bool) (n : Ifaddrs), find_af_inet le [n] = some (.ok [])) ∧
    (∀ (le : Bool) (n : Ifaddrs) (rest : List Ifaddrs),
      find_af_inet le (n :: rest) = process_nodes le ((n :: rest).dropLast)) ∧
    find_af_inet true
      [{ ifa_name := [101, 116, 104, 48],
         ifa_addr := some { sa_family := AF_INET, sin_addr := (10, 0, 0, 5), sin6_addr := [] } }] =
      some (.ok []) := by
  refine ⟨fun le n => rfl, fun le n rest => find_af_inet_eq_process le n rest, by decide⟩

/-- C5: the raw 32-bit IPv4 value is byte-swapped exactly on
little-endian hosts and untouched on big-endian hosts, reconstructing
the network-order bytes on both; IPv6 bytes reach the result verbatim,
never swapped; the record holding 127.0.0.1 in network order (loaded as
0x0100007F on a little-endian host) yields 127.0.0.1 on both. -/
theorem ipv4_byte_order_correct (le : Bool) :
    (∀ b0 b1 b2 b3 : Nat, b0 < 256 → b1 < 256 → b2 < 256 → b3 < 256 →
      ipv4_addr_of le (load_u32 le (b0, b1, b2, b3)) = IpAddr.V4 b0 b1 b2 b3) ∧
    (∀ (nodes : List Ifaddrs) (l : List (String × IpAddr)),
      find_af_inet le nodes = some (.ok l) →
      ∀ p ∈ l, ∀ bytes, p.2 = IpAddr.V6 bytes →
        ∃ n ∈ nodes.dropLast, ∃ sa, n.ifa_addr = some sa ∧
          sa.sa_family = AF_INET6 ∧ sa.sin6_addr = bytes) ∧
    (load_u32 true (127, 0, 0, 1) = 0x0100007F ∧
      ipv4_addr_of true (load_u32 true (127, 0, 0, 1)) = IpAddr.V4 127 0 0 1 ∧
      ipv4_addr_of false (load_u32 false (127, 0, 0, 1)) = IpAddr.V4 127 0 0 1) := by
  refine ⟨fun b0 b1 b2 b3 h0 h1 h2 h3 => ipv4_roundtrip le b0 b1 b2 b3 h0 h1 h2 h3,
    ?_, by decide, by decide, by decide⟩
  intro nodes l h p hp bytes hv6
  cases nodes with
  | nil => simp [find_af_inet, find_af_inet_run, find_af_inet_loop] at h
  | cons n rest =>
    rw [find_af_inet_eq_process] at h
    obtain ⟨m, hm, sa, hsa, _, hfam⟩ := process_nodes_mem le _ l h p hp
    rcases hfam with ⟨_, hp4⟩ | ⟨h6, hp6⟩
    · rw [hv6] at hp4
      exact absurd hp4.symm (ipv4_addr_of_ne_V6 le _ bytes)
    · rw [hv6] at hp6
      exact ⟨m, hm, sa, hsa, h6, ((IpAddr.V6.injEq _ _).mp hp6).symm⟩

/-- C5 witness: the general reconstruction applied to the concrete
network-order bytes of 10.0.0.5. -/
theorem ipv4_byte_order_correct_witness :
    ipv4_addr_of true (load_u32 true (10, 0, 0, 5)) = IpAddr.V4 10 0 0 5 :=
  (ipv4_byte_order_correct true).1 10 0 0 5 (by decide) (by decide) (by decide) (by decide)

/-- C6: the synthetic three-node list eth0/IPv4 10.0.0.5,
eth0/IPv6 fe80::1, lo/AF_UNIX produces exactly the two eth0 entries in
input order, with no entry for the unrecognized family, on either host
endianness. -/
theorem find_af_inet_three_node_list (le : Bool) :
    find_af_inet le
      [{ ifa_name := [101, 116, 104, 48],
         ifa_addr := some { sa_family := AF_INET, sin_addr := (10, 0, 0, 5), sin6_addr := [] } },
       { ifa_name := [101, 116, 104, 48],
         ifa_addr := some { sa_family := AF_INET6, sin_addr := (0, 0, 0, 0), sin6_addr := [0xfe, 0x80, 0, 0, 0, 0, 0, 0, 0, 0, 0, 0, 0, 0, 0, 1] } },
       { ifa_name := [108, 111],
         ifa_addr := some { sa_family := 1, sin_addr := (0, 0, 0, 0), sin6_addr := [] } }] =
      some (.ok [("eth0", IpAddr.V4 10 0 0 5),
        ("eth0", IpAddr.V6 [0xfe, 0x80, 0, 0, 0, 0, 0, 0, 0, 0, 0, 0, 0, 0, 0, 1])]) := by
  cases le <;> decide

/-- C3: with the channel open and the send successful, local_ip skips
every decodable new-address message whose scope is not Universe,
returns the first address collected over the whole stream, and on the
concrete stream of a host-scope loopback 127.0.0.1 followed by a
universe-scope 192.168.1.50 it returns 192.168.1.50 on either host
endianness. -/
theorem local_ip_universe_filter (le : Bool) :
    (∀ (pm : Ifaddrmsg) (rest : List NlResponse), pm.ifa_scope ≠ RT_SCOPE_UNIVERSE →
      local_ip le none none (.msg RTM_NEWADDR (.payload pm) :: rest) =
        local_ip le none none rest) ∧
    (∀ (rs : List NlResponse) (a : IpAddr) (t : List IpAddr),
      (∀ r ∈ rs, malformed le r = false) →
      (rs.map (qualifying_addrs le)).flatten = a :: t →
      local_ip le none none rs = .ok a) ∧
    local_ip le none none
      [.msg RTM_NEWADDR (.payload { ifa_scope := RT_SCOPE_HOST, rtattrs := [{ rta_type := IFA_LOCAL, payload := [127, 0, 0, 1] }] }),
       .msg RTM_NEWADDR (.payload { ifa_scope := RT_SCOPE_UNIVERSE, rtattrs := [{ rta_type := IFA_LOCAL, payload := [192, 168, 1, 50] }] })] =
      .ok (IpAddr.V4 192 168 1 50) := by
  refine ⟨?_, ?_, by cases le <;> decide⟩
  · intro pm rest hs
    have hm : malformed le (.msg RTM_NEWADDR (.payload pm)) = false := by
      simp [malformed, hs]
    have hq : qualifying_addrs le (.msg RTM_NEWADDR (.payload pm)) = [] := by
      simp [qualifying_addrs, hs]
    have hc := local_ip_loop_cons_ok le (.msg RTM_NEWADDR (.payload pm)) rest [] hm
    rw [hq] at hc
    simp [local_ip, hc]
  · intro rs a t hnm hflat
    have hloop := local_ip_loop_ok_of_none_malformed le rs hnm []
    rw [List.nil_append, hflat] at hloop
    simp [local_ip, hloop]

/-- C3 witness: a non-universe-scope message at the head of the stream
is skipped. -/
theorem local_ip_universe_filter_witness :
    local_ip true none none
      [.msg RTM_NEWADDR (.payload { ifa_scope := RT_SCOPE_HOST, rtattrs := [] })] =
      local_ip true none none [] :=
  (local_ip_universe_filter true).1 { ifa_scope := RT_SCOPE_HOST, rtattrs := [] } []
    (by decide)

/-- C4: local_ip fails with NetlinkFailedToFindLocalIp exactly when the
channel and send succeeded and the stream either has a malformed
element (failed receive, non-empty message of a type other than
new-address, undecodable payload, or a universe-scope message whose
local attribute fails to decode) or contributes no qualifying address;
empty-payload messages are skipped without effect; a successful value
always comes from some universe-scope message of the stream, so a
loopback is returned only if the stream itself reports loopback at
universe scope — which the kernel does not. -/
theorem local_ip_error_conditions (le : Bool) (ce se : Option String)
    (rs : List NlResponse) :
    (local_ip le ce se rs = .error .NetlinkFailedToFindLocalIp ↔
      ce = none ∧ se = none ∧
        ((∃ r ∈ rs, malformed le r = true) ∨ ∀ r ∈ rs, qualifying_addrs le r = [])) ∧
    (∀ (t : Nat) (rest : List NlResponse),
      local_ip le ce se (.msg t .empty :: rest) = local_ip le ce se rest) ∧
    (∀ a, local_ip le ce se rs = .ok a → ∃ r ∈ rs, a ∈ qualifying_addrs le r) ∧
    ((∀ r ∈ rs, IpAddr.V4 127 0 0 1 ∉ qualifying_addrs le r) →
      local_ip le ce se rs ≠ .ok (IpAddr.V4 127 0 0 1)) := by
  cases ce with
  | some e =>
    refine ⟨by simp [local_ip], fun t rest => rfl, fun a h => ?_, fun hlb h => ?_⟩
    · simp [local_ip] at h
    · simp [local_ip] at h
  | none =>
    cases se with
    | some e =>
      refine ⟨by simp [local_ip], fun t rest => rfl, fun a h => ?_, fun hlb h => ?_⟩
      · simp [local_ip] at h
      · simp [local_ip] at h
    | none =>
      refine ⟨?_, ?_, fun a h => local_ip_none_none_ok_mem le rs a h, ?_⟩
      · simpa using local_ip_none_none_error_iff le rs
      · intro t rest
        have hm : malformed le (.msg t .empty) = false := rfl
        have hq : qualifying_addrs le (.msg t .empty) = [] := rfl
        have hc := local_ip_loop_cons_ok le (.msg t .empty) rest [] hm
        rw [hq] at hc
        simp [local_ip, hc]
      · intro hlb h
        obtain ⟨r, hr, hmem⟩ := local_ip_none_none_ok_mem le rs _ h
        exact hlb r hr hmem

/-- C4 witness: a stream consisting of a failed receive makes local_ip
fail with NetlinkFailedToFindLocalIp. -/
theorem local_ip_error_conditions_witness :
    local_ip true none none [NlResponse.recvErr] = .error .NetlinkFailedToFindLocalIp :=
  (local_ip_error_conditions true none none [.recvErr]).1.mpr (by decide)

/-- C7: a successful find_af_inet implies every visited recognized-
family node had a name that decoded; on the concrete list eth0,
then a node whose name byte 0xFF is invalid UTF-8, then a terminal
node, the call returns IntAddrNameParseError and the eth0 entry
collected before the failure is discarded. -/
theorem find_af_inet_name_error_aborts (le : Bool) :
    (∀ (nodes : List Ifaddrs) (l : List (String × IpAddr)),
      find_af_inet le nodes = some (.ok l) →
      ∀ n ∈ nodes.dropLast, ∀ sa, n.ifa_addr = some sa →
        (sa.sa_family = AF_INET ∨ sa.sa_family = AF_INET6) →
        ∃ s, get_ifa_name n.ifa_name = .ok s) ∧
    find_af_inet le
      [{ ifa_name := [101, 116, 104, 48], ifa_addr := some { sa_family := AF_INET, sin_addr := (10, 0, 0, 5), sin6_addr := [] } },
       { ifa_name := [0xFF], ifa_addr := some { sa_family := AF_INET, sin_addr := (1, 2, 3, 4), sin6_addr := [] } },
       { ifa_name := [108, 111], ifa_addr := some { sa_family := 1, sin_addr := (0, 0, 0, 0), sin6_addr := [] } }] =
      some (.error (.IntAddrNameParseError [0xFF])) := by
  refine ⟨?_, by cases le <;> decide⟩
  intro nodes l h
  cases nodes with
  | nil => intro n hn; simp at hn
  | cons m rest =>
    rw [find_af_inet_eq_process] at h
    exact process_nodes_names_ok le _ l h

/-- C7 witness: on a successful two-node walk the visited eth0 node
must have had a decodable name. -/
theorem find_af_inet_name_error_aborts_witness :
    ∃ s, get_ifa_name [101, 116, 104, 48] = .ok s :=
  (find_af_inet_name_error_aborts true).1
    [{ ifa_name := [101, 116, 104, 48], ifa_addr := some { sa_family := AF_INET, sin_addr := (10, 0, 0, 5), sin6_addr := [] } },
     { ifa_name := [108, 111], ifa_addr := some { sa_family := 1, sin_addr := (0, 0, 0, 0), sin6_addr := [] } }]
    [("eth0", IpAddr.V4 10 0 0 5)] (by decide)
    { ifa_name := [101, 116, 104, 48], ifa_addr := some { sa_family := AF_INET, sin_addr := (10, 0, 0, 5), sin6_addr := [] } }
    (by decide)
    { sa_family := AF_INET, sin_addr := (10, 0, 0, 5), sin6_addr := [] }
    (by decide) (Or.inl (by decide))

/-- C8 counterexample: a successful find_af_inet result can carry an
empty interface name — a visited AF_INET node whose name field starts
with the terminator yields the entry with name "". -/
theorem find_af_inet_accepts_empty_name :
    find_af_inet true
      [{ ifa_name := [], ifa_addr := some { sa_family := AF_INET, sin_addr := (10, 0, 0, 5), sin6_addr := [] } },
       { ifa_name := [108, 111], ifa_addr := some { sa_family := 1, sin_addr := (0, 0, 0, 0), sin6_addr := [] } }] =
      some (.ok [("", IpAddr.V4 10 0 0 5)]) := by
  decide

/-- C8 amended: every address of a successful result is a fully
populated V4 of four octets below 256 or a verbatim V6 of the node's
16-byte s6_addr array; every name is the successful UTF-8 decode of a
node's null-terminated name bytes, and is non-empty provided every
node's name string is non-empty (as OS interface names are). -/
theorem find_af_inet_result_wellformed (le : Bool) (nodes : List Ifaddrs)
    (l : List (String × IpAddr))
    (h16 : ∀ n ∈ nodes, ∀ sa, n.ifa_addr = some sa → sa.sin6_addr.length = 16)
    (h : find_af_inet le nodes = some (.ok l)) :
    ∀ p ∈ l,
      ((∃ a b c d, p.2 = IpAddr.V4 a b c d ∧ a < 256 ∧ b < 256 ∧ c < 256 ∧ d < 256) ∨
        (∃ bytes, p.2 = IpAddr.V6 bytes ∧ bytes.length = 16)) ∧
      (∃ n ∈ nodes, ∃ cs, utf8Decode (n.ifa_name.takeWhile (fun b => b ≠ 0)) = some cs ∧
        p.1 = stringOfScalars cs) ∧
      ((∀ n ∈ nodes, n.ifa_name.takeWhile (fun b => b ≠ 0) ≠ []) → p.1 ≠ "") := by
  intro p hp
  cases nodes with
  | nil => simp [find_af_inet, find_af_inet_run, find_af_inet_loop] at h
  | cons m rest =>
    rw [find_af_inet_eq_process] at h
    obtain ⟨n, hn, sa, hsa, hname, hfam⟩ := process_nodes_mem le _ l h p hp
    have hnn : n ∈ m :: rest := List.dropLast_subset _ hn
    have hdec : ∃ cs, utf8Decode (n.ifa_name.takeWhile (fun b => b ≠ 0)) = some cs ∧
        p.1 = stringOfScalars cs := by
      simp only [get_ifa_name] at hname
      cases hu : utf8Decode (n.ifa_name.takeWhile (fun b => b ≠ 0)) with
      | none => rw [hu] at hname; simp at hname
      | some cs =>
        rw [hu] at hname
        simp only [Except.ok.injEq] at hname
        exact ⟨cs, rfl, hname.symm⟩
    obtain ⟨cs, hu, hps⟩ := hdec
    refine ⟨?_, ⟨n, hnn, cs, hu, hps⟩, ?_⟩
    · rcases hfam with ⟨h4, hp4⟩ | ⟨h6, hp6⟩
      · obtain ⟨a, b, c, d, heq, ha, hb, hc, hd⟩ :=
          ipv4_addr_of_octets le (load_u32 le sa.sin_addr)
        exact Or.inl ⟨a, b, c, d, by rw [hp4, heq], ha, hb, hc, hd⟩
      · exact Or.inr ⟨sa.sin6_addr, hp6, h16 n hnn sa hsa⟩
    · intro hne
      cases hslice : n.ifa_name.takeWhile (fun b => b ≠ 0) with
      | nil => exact absurd hslice (hne n hnn)
      | cons b bs =>
        rw [hslice] at hu
        have hcs := utf8Decode_cons_ne_nil b bs cs hu
        cases cs with
        | nil => exact absurd rfl hcs
        | cons c cs2 =>
          rw [hps]
          exact stringOfScalars_ne_empty c cs2

/-- C8 amended witness: the amended invariant evaluated on a concrete
successful walk. -/
theorem find_af_inet_result_wellformed_witness :
    ((∃ a b c d, IpAddr.V4 10 0 0 5 = IpAddr.V4 a b c d ∧
        a < 256 ∧ b < 256 ∧ c < 256 ∧ d < 256) ∨
      (∃ bytes, IpAddr.V4 10 0 0 5 = IpAddr.V6 bytes ∧ bytes.length = 16)) ∧
    (∃ n ∈ [{ ifa_name := [101, 116, 104, 48], ifa_addr := some { sa_family := AF_INET, sin_addr := (10, 0, 0, 5), sin6_addr := List.replicate 16 0 } },
            ({ ifa_name := [108, 111], ifa_addr := none } : Ifaddrs)],
      ∃ cs, utf8Decode (n.ifa_name.takeWhile (fun b => b ≠ 0)) = some cs ∧
        "eth0" = stringOfScalars cs) ∧
    ((∀ n ∈ [{ ifa_name := [101, 116, 104, 48], ifa_addr := some { sa_family := AF_INET, sin_addr := (10, 0, 0, 5), sin6_addr := List.replicate 16 0 } },
            ({ ifa_name := [108, 111], ifa_addr := none } : Ifaddrs)],
        n.ifa_name.takeWhile (fun b => b ≠ 0) ≠ []) → ("eth0" : String) ≠ "") :=
  find_af_inet_result_wellformed true
    [{ ifa_name := [101, 116, 104, 48], ifa_addr := some { sa_family := AF_INET, sin_addr := (10, 0, 0, 5), sin6_addr := List.replicate 16 0 } },
     { ifa_name := [108, 111], ifa_addr := none }]
    [("eth0", IpAddr.V4 10 0 0 5)]
    (by
      intro n hn sa hsa
      rcases List.mem_cons.mp hn with h | h
      · subst h
        injection hsa with h2
        rw [← h2]
        simp
      · rcases List.mem_cons.mp h with h2 | h2
        · subst h2
          exact Option.noConfusion hsa
        · exact absurd h2 (List.not_mem_nil n))
    (by decide)
    ("eth0", IpAddr.V4 10 0 0 5)
    (List.mem_cons_self _ _)

/-- C9: local_ip consumes the whole stream: a malformed element
anywhere — even after qualifying addresses were already collected —
fails the call with NetlinkFailedToFindLocalIp. -/
theorem local_ip_rejects_late_malformed (le : Bool) (pre post : List NlResponse)
    (m : NlResponse) (hm : malformed le m = true) :
    local_ip le none none (pre ++ m :: post) = .error .NetlinkFailedToFindLocalIp := by
  have hloop := local_ip_loop_err_of_malformed le (pre ++ m :: post)
    ⟨m, by simp, hm⟩ []
  simp [local_ip, hloop]

/-- C9 witness: a qualifying universe-scope 192.168.1.50 followed by a
universe-scope message whose local attribute has a 2-byte payload that
fails to decode as a u32: the call fails instead of returning the
collected address. -/
theorem local_ip_rejects_late_malformed_witness :
    local_ip true none none
      [.msg RTM_NEWADDR (.payload { ifa_scope := RT_SCOPE_UNIVERSE, rtattrs := [{ rta_type := IFA_LOCAL, payload := [192, 168, 1, 50] }] }),
       .msg RTM_NEWADDR (.payload { ifa_scope := RT_SCOPE_UNIVERSE, rtattrs := [{ rta_type := IFA_LOCAL, payload := [1, 2] }] })] =
      .error .NetlinkFailedToFindLocalIp :=
  local_ip_rejects_late_malformed true
    [.msg RTM_NEWADDR (.payload { ifa_scope := RT_SCOPE_UNIVERSE, rtattrs := [{ rta_type := IFA_LOCAL, payload := [192, 168, 1, 50] }] })]
    []
    (.msg RTM_NEWADDR (.payload { ifa_scope := RT_SCOPE_UNIVERSE, rtattrs := [{ rta_type := IFA_LOCAL, payload := [1, 2] }] }))
    (by decide)

/-- C10: the loop reads the family tag through ifa_addr with no null
check: a visited node with a null ifa_addr is undefined behaviour
(modelled none), and when every visited node carries a non-null
ifa_addr the walk is total. -/
theorem find_af_inet_null_addr_unchecked (le : Bool) :
    (∀ (n next : Ifaddrs) (rest : List Ifaddrs), n.ifa_addr = none →
      find_af_inet le (n :: next :: rest) = none) ∧
    (∀ nodes : List Ifaddrs, nodes ≠ [] →
      (∀ n ∈ nodes.dropLast, n.ifa_addr.isSome) → find_af_inet le nodes ≠ none) := by
  constructor
  · intro n next rest h
    rw [find_af_inet_eq_process, List.dropLast_cons₂]
    simp [process_nodes, h]
  · intro nodes hne haddr
    cases nodes with
    | nil => exact absurd rfl hne
    | cons n rest =>
      rw [find_af_inet_eq_process]
      exact process_nodes_total le _ haddr

/-- C10 witness: a visited node with null ifa_addr gives undefined
behaviour; with all visited ifa_addr non-null the walk completes. -/
theorem find_af_inet_null_addr_unchecked_witness :
    find_af_inet true
      [{ ifa_name := [108, 111], ifa_addr := none },
       { ifa_name := [108, 111], ifa_addr := some { sa_family := 1, sin_addr := (0, 0, 0, 0), sin6_addr := [] } }] = none ∧
    find_af_inet true
      [{ ifa_name := [101, 116, 104, 48], ifa_addr := some { sa_family := AF_INET, sin_addr := (10, 0, 0, 5), sin6_addr := [] } },
       { ifa_name := [108, 111], ifa_addr := none }] ≠ none :=
  ⟨(find_af_inet_null_addr_unchecked true).1 _ _ [] rfl,
   (find_af_inet_null_addr_unchecked true).2 _ (by decide) (by decide)⟩

end LocalIpAddress
